import Mathlib

set_option maxHeartbeats 1600000

/-!
Verification development for the shutil repository: the glob-pattern
compiler (glob.go), the directory-aware matching helpers, and the shell
variable substitution routine (subst.go).

Strings are modelled as lists of Unicode code points (Lean `Char`), which
is how the Go code consumes them (`utf8.DecodeRuneInString`); byte offsets
are modelled by summing `Char.utf8Size`, matching Go's byte indices.
-/

namespace Shutil

deriving instance DecidableEq for Except

/-!
### Model of the regular-expression engine

The translator in glob.go emits text in the dialect of Go's regexp
package, an engine external to this repository.  The engine is modelled
here on the fragment of the dialect the translator emits: literals,
escaped punctuation, `.` (with the `s` flag always set by the emitted
`(?s)`), grouping, alternation, character classes with negation and
ranges, and the postfix quantifiers.  Matching semantics is the standard
one, decided by Brzozowski derivatives; the emitted text is always
anchored `^(?s)...$`, so a match is a match of the entire candidate.
-/

/-- Abstract syntax of the regular-expression fragment the engine model
supports.  `cls neg items` is a character class: a set of ranges,
complemented when `neg` is true. -/
inductive Regex where
  | emp : Regex
  | eps : Regex
  | any : Regex
  | lit : Char → Regex
  | cls : Bool → List (Char × Char) → Regex
  | cat : Regex → Regex → Regex
  | alt : Regex → Regex → Regex
  | star : Regex → Regex
deriving DecidableEq

/-- Does a character fall in one of the ranges of a class body? -/
def classElem (c : Char) : List (Char × Char) → Bool
  | [] => false
  | (lo, hi) :: t => (decide (lo ≤ c) && decide (c ≤ hi)) || classElem c t

/-- Character-class membership, taking the negation marker into account. -/
def inCls (neg : Bool) (items : List (Char × Char)) (c : Char) : Bool :=
  if neg then !(classElem c items) else classElem c items

/-- Does the expression accept the empty string? -/
def nullable : Regex → Bool
  | .emp => false
  | .eps => true
  | .any => false
  | .lit _ => false
  | .cls _ _ => false
  | .cat a b => nullable a && nullable b
  | .alt a b => nullable a || nullable b
  | .star _ => true

/-- Brzozowski derivative of an expression by one character. -/
def deriv : Regex → Char → Regex
  | .emp, _ => .emp
  | .eps, _ => .emp
  | .any, _ => .eps
  | .lit d, c => if c = d then .eps else .emp
  | .cls n it, c => if inCls n it c then .eps else .emp
  | .cat a b, c =>
      if nullable a then .alt (.cat (deriv a c) b) (deriv b c)
      else .cat (deriv a c) b
  | .alt a b, c => .alt (deriv a c) (deriv b c)
  | .star a, c => .cat (deriv a c) (.star a)

/-- Executable whole-string matcher: derivative by each character in turn,
then test for the empty string. -/
def rmatch (r : Regex) (s : List Char) : Bool :=
  nullable (s.foldl deriv r)

/-- Declarative whole-string matching semantics of the engine model. -/
inductive RMatch : Regex → List Char → Prop where
  | eps : RMatch .eps []
  | any (c : Char) : RMatch .any [c]
  | lit (c : Char) : RMatch (.lit c) [c]
  | cls {n : Bool} {it : List (Char × Char)} {c : Char} :
      inCls n it c = true → RMatch (.cls n it) [c]
  | cat {a b : Regex} {s1 s2 : List Char} :
      RMatch a s1 → RMatch b s2 → RMatch (.cat a b) (s1 ++ s2)
  | altL {a b : Regex} {s : List Char} : RMatch a s → RMatch (.alt a b) s
  | altR {a b : Regex} {s : List Char} : RMatch b s → RMatch (.alt a b) s
  | starNil {a : Regex} : RMatch (.star a) []
  | starCons {a : Regex} {s1 s2 : List Char} :
      s1 ≠ [] → RMatch a s1 → RMatch (.star a) s2 →
      RMatch (.star a) (s1 ++ s2)

theorem nullable_of_rmatch_nil {r : Regex} {s : List Char}
    (h : RMatch r s) (hs : s = []) : nullable r = true := by
  induction h with
  | eps => rfl
  | any c => simp at hs
  | lit c => simp at hs
  | cls h => simp at hs
  | cat h1 h2 ih1 ih2 =>
      rcases List.append_eq_nil.mp hs with ⟨e1, e2⟩
      simp [nullable, ih1 e1, ih2 e2]
  | altL h ih => simp [nullable, ih hs]
  | altR h ih => simp [nullable, ih hs]
  | starNil => rfl
  | starCons hne h1 h2 ih1 ih2 => rfl

theorem rmatch_nil_of_nullable : ∀ {r : Regex}, nullable r = true → RMatch r [] := by
  intro r
  induction r with
  | emp => intro h; simp [nullable] at h
  | eps => intro _; exact .eps
  | any => intro h; simp [nullable] at h
  | lit c => intro h; simp [nullable] at h
  | cls n it => intro h; simp [nullable] at h
  | cat a b iha ihb =>
      intro h
      simp only [nullable, Bool.and_eq_true] at h
      simpa using RMatch.cat (iha h.1) (ihb h.2)
  | alt a b iha ihb =>
      intro h
      simp only [nullable, Bool.or_eq_true] at h
      cases h with
      | inl h => exact .altL (iha h)
      | inr h => exact .altR (ihb h)
  | star a ih => intro _; exact .starNil

theorem rmatch_of_deriv : ∀ {r : Regex} {c : Char} {s : List Char},
    RMatch (deriv r c) s → RMatch r (c :: s) := by
  intro r
  induction r with
  | emp => intro c s h; cases h
  | eps => intro c s h; cases h
  | any => intro c s h; cases h; exact .any c
  | lit d =>
      intro c s h
      by_cases hc : c = d
      · subst hc
        rw [deriv, if_pos rfl] at h
        cases h
        exact .lit c
      · rw [deriv, if_neg hc] at h
        cases h
  | cls n it =>
      intro c s h
      by_cases hc : inCls n it c = true
      · rw [deriv, if_pos hc] at h
        cases h
        exact .cls hc
      · rw [deriv, if_neg hc] at h
        cases h
  | cat a b iha ihb =>
      intro c s h
      by_cases hn : nullable a = true
      · rw [deriv, if_pos hn] at h
        cases h with
        | altL h =>
            cases h with
            | cat h1 h2 =>
                have := RMatch.cat (iha h1) h2
                simpa using this
        | altR h =>
            have h0 : RMatch a [] := rmatch_nil_of_nullable hn
            simpa using RMatch.cat h0 (ihb h)
      · rw [deriv, if_neg hn] at h
        cases h with
        | cat h1 h2 =>
            have := RMatch.cat (iha h1) h2
            simpa using this
  | alt a b iha ihb =>
      intro c s h
      cases h with
      | altL h => exact .altL (iha h)
      | altR h => exact .altR (ihb h)
  | star a ih =>
      intro c s h
      cases h with
      | cat h1 h2 =>
          have := RMatch.starCons (by simp) (ih h1) h2
          simpa using this

theorem deriv_of_rmatch {r : Regex} {s : List Char} (h : RMatch r s) :
    ∀ {c : Char} {t : List Char}, s = c :: t → RMatch (deriv r c) t := by
  induction h with
  | eps => intro c t h; cases h
  | any d => intro c t h; cases h; exact .eps
  | lit d =>
      intro c t h
      cases h
      rw [deriv, if_pos rfl]
      exact .eps
  | cls hmem =>
      intro c t h
      cases h
      rw [deriv, if_pos hmem]
      exact .eps
  | @cat a b s1 s2 h1 h2 ih1 ih2 =>
      intro c t heq
      cases s1 with
      | nil =>
          have hn : nullable a = true := nullable_of_rmatch_nil h1 rfl
          simp only [List.nil_append] at heq
          rw [deriv, if_pos hn]
          exact .altR (ih2 heq)
      | cons x s1' =>
          rw [List.cons_append] at heq
          cases heq
          by_cases hn : nullable a = true
          · rw [deriv, if_pos hn]
            exact .altL (.cat (ih1 rfl) h2)
          · rw [deriv, if_neg hn]
            exact .cat (ih1 rfl) h2
  | altL h ih =>
      intro c t heq
      exact .altL (ih heq)
  | altR h ih =>
      intro c t heq
      exact .altR (ih heq)
  | starNil => intro c t h; cases h
  | @starCons a s1 s2 hne h1 h2 ih1 ih2 =>
      intro c t heq
      cases s1 with
      | nil => exact absurd rfl hne
      | cons x s1' =>
          rw [List.cons_append] at heq
          cases heq
          exact .cat (ih1 rfl) h2

/-- The executable derivative matcher decides the declarative semantics. -/
theorem rmatch_iff_RMatch : ∀ (s : List Char) (r : Regex),
    rmatch r s = true ↔ RMatch r s := by
  intro s
  induction s with
  | nil =>
      intro r
      constructor
      · exact rmatch_nil_of_nullable
      · intro h; exact nullable_of_rmatch_nil h rfl
  | cons c t ih =>
      intro r
      have hstep : rmatch r (c :: t) = rmatch (deriv r c) t := rfl
      rw [hstep, ih]
      constructor
      · exact rmatch_of_deriv
      · intro h; exact deriv_of_rmatch h rfl

/-!
### Front end of the engine model: parsing the emitted dialect text

The translator emits text for Go's regexp package.  The fragment grammar
below covers exactly what the translator can emit: literals, escaped
punctuation, `.`, `(...)` groups, `|` alternation, `[...]` classes with
`^` negation, ranges and the escapes `\\ \- \^ \[ \] \0`, and the
postfix quantifiers `* ? +`.  Like Go's parser, `]` and `-` are allowed
as literal first characters of a class, a bare `]` or `}` outside a
class is a literal, and a dangling or misplaced metacharacter is a
compile error (`none`).  The functions take a fuel argument for
termination; the top entry point supplies more than enough.
-/

/-- One character of a class body, undoing the dialect's escapes
(`\0` is the NUL escape; escaped punctuation stands for itself). -/
def classChar : List Char → Option (Char × List Char)
  | [] => none
  | '\\' :: [] => none
  | '\\' :: e :: r =>
      if e = '0' then some (Char.ofNat 0, r)
      else if e.isAlphanum then none
      else some (e, r)
  | c :: r => some (c, r)

/-- Items of a class body up to the closing `]`.  `first` is true only
for the first item, where a bare `]` or `-` is a literal, as in Go's
class parser; a range `lo-hi` with `hi < lo` is an error. -/
def pClassItems : Nat → Bool → List Char → Option (List (Char × Char) × List Char)
  | 0, _, _ => none
  | fuel + 1, first, l =>
      match l with
      | [] => none
      | c :: r =>
          if c = ']' ∧ first = false then some ([], r)
          else
            match classChar l with
            | none => none
            | some (lo, r1) =>
                let step : Option ((Char × Char) × List Char) :=
                  match r1 with
                  | '-' :: h :: r2 =>
                      if h = ']' then some ((lo, lo), r1)
                      else
                        match classChar (h :: r2) with
                        | none => none
                        | some (hi, r3) =>
                            if hi < lo then none else some ((lo, hi), r3)
                  | _ => some ((lo, lo), r1)
                match step with
                | none => none
                | some (item, rest1) =>
                    match pClassItems fuel false rest1 with
                    | none => none
                    | some (items, rest2) => some (item :: items, rest2)

/-- A class body after the opening `[`: optional `^` negation, then the
items and the closing `]`. -/
def pClass (l : List Char) : Option (Regex × List Char) :=
  match l with
  | '^' :: r =>
      match pClassItems (r.length + 1) true r with
      | none => none
      | some (items, rest) => some (.cls true items, rest)
  | _ =>
      match pClassItems (l.length + 1) true l with
      | none => none
      | some (items, rest) => some (.cls false items, rest)

mutual

/-- Alternation: concatenations separated by `|`. -/
def pAlt : Nat → List Char → Option (Regex × List Char)
  | 0, _ => none
  | fuel + 1, l =>
      match pCat fuel l with
      | none => none
      | some (r, rest) =>
          match rest with
          | '|' :: rest2 =>
              match pAlt fuel rest2 with
              | none => none
              | some (r2, rest3) => some (.alt r r2, rest3)
          | _ => some (r, rest)

/-- Concatenation: a sequence of quantified atoms, ending at `)`, `|`,
an (unescaped) end anchor `$`, or the end of the text. -/
def pCat : Nat → List Char → Option (Regex × List Char)
  | 0, _ => none
  | fuel + 1, l =>
      match l with
      | [] => some (.eps, [])
      | ')' :: _ => some (.eps, l)
      | '|' :: _ => some (.eps, l)
      | '$' :: _ => some (.eps, l)
      | _ =>
          match pFactor fuel l with
          | none => none
          | some (r, rest) =>
              match pCat fuel rest with
              | none => none
              | some (r2, rest2) => some (.cat r r2, rest2)

/-- An atom with an optional postfix quantifier. -/
def pFactor : Nat → List Char → Option (Regex × List Char)
  | 0, _ => none
  | fuel + 1, l =>
      match pAtom fuel l with
      | none => none
      | some (r, rest) =>
          match rest with
          | '*' :: rest2 => some (.star r, rest2)
          | '?' :: rest2 => some (.alt r .eps, rest2)
          | '+' :: rest2 => some (.cat r (.star r), rest2)
          | _ => some (r, rest)

/-- An atom: group, class, escaped or plain literal, or `.`. -/
def pAtom : Nat → List Char → Option (Regex × List Char)
  | 0, _ => none
  | fuel + 1, l =>
      match l with
      | [] => none
      | '(' :: rest =>
          match pAlt fuel rest with
          | none => none
          | some (r, rest2) =>
              match rest2 with
              | ')' :: rest3 => some (r, rest3)
              | _ => none
      | '[' :: rest => pClass rest
      | '\\' :: [] => none
      | '\\' :: e :: rest => if e.isAlphanum then none else some (.lit e, rest)
      | '.' :: rest => some (.any, rest)
      | c :: rest =>
          if c = ')' ∨ c = '|' ∨ c = '*' ∨ c = '?' ∨ c = '+' ∨ c = '^' ∨ c = '$'
          then none
          else some (.lit c, rest)

end

/-- The anchor-and-flag prefix `^(?s)` that CompileGlob writes before
translating, as a character list. -/
def anchorPrefix : List Char := ('^' :: '(' :: '?' :: 's' :: ')' :: [])

/-- Model of `regexp.Compile` on the dialect text the translator emits:
the text has the shape `^(?s)BODY` followed by the `$` that CompileGlob
appends.  The body (with that `$` still attached) is parsed by the
fragment grammar.  If the parse stops exactly at the final `$`, that `$`
is the end anchor and the match is against the entire candidate.  If the
parse consumes the final `$` — which happens exactly when the emitted
output ends with a dangling `\` (a pattern ending in `\`, or in `\`
followed by NUL), so the engine reads `\$` as an escaped literal dollar
— there is no end anchor: the expression matches any candidate that
begins with a match, modelled by appending `Σ*` (`.star .any`; the `s`
flag is set, so `.any` is every code point).  `none` models a compile
error reported by the engine.  Escapes that Go's engine reads as
assertions or character classes (`\b`, `\d`, ...) are outside the
modelled fragment and map to `none`; they are reachable from the
translator only through the backslash-NUL quirk, and no statement below
relies on the model's behaviour at such texts. -/
def regexpCompile (text : List Char) : Option Regex :=
  if text.take 5 = anchorPrefix ∧ text.getLast? = some '$' then
    match pAlt (8 * text.length + 16) (text.drop 5) with
    | some (r, '$' :: []) => some r
    | some (r, []) => some (.cat r (.star .any))
    | _ => none
  else none

/-!
### The glob translator (glob.go)

The Go parser is a trampoline of parse functions over a mutable state
(input string, byte index, width of the last consumed code point,
negation flag, error slot, output buffer, brace-nesting counter).  Here
the remaining input is the recursion argument and the rest of the state
is the `PState` record; since the Go input string is immutable and the
byte index only moves forward, the two presentations are equivalent.
`back` is only ever used through `peek`, which is modelled as a direct
lookahead.
-/

/-- glob.go: `const eof rune = 0`.  A NUL code point inside the input is
therefore indistinguishable from end of input wherever the parser
compares against `eof`. -/
def eofRune : Char := '\x00'

/-- The only error the translator itself raises (ErrUnterminatedClass). -/
inductive GlobCause where
  | unterminatedClass : GlobCause
deriving DecidableEq

/-- glob.go GlobError: the pattern, the byte index of the fault, and the
underlying cause. -/
structure GlobError where
  pattern : List Char
  index : Nat
  err : GlobCause
deriving DecidableEq

/-- The non-cursor fields of glob.go's globParser. -/
structure PState where
  inp : List Char
  index : Nat
  width : Nat
  neg : Bool
  err : Option GlobError
  out : List Char
  choiceNest : Nat
deriving DecidableEq

/-- glob.go next() in the consuming case: record the byte width of the
code point and advance the byte index. -/
def consume (st : PState) (c : Char) : PState :=
  { st with index := st.index + c.utf8Size, width := c.utf8Size }

/-- Append one code point to the output buffer. -/
def writeRune (st : PState) (c : Char) : PState :=
  { st with out := st.out ++ [c] }

/-- Append a string to the output buffer. -/
def writeStr (st : PState) (cs : List Char) : PState :=
  { st with out := st.out ++ cs }

/-- The text `(|[^\0]*/)` emitted for a `*` whose remainder starts `*/`. -/
def globstarSlashOut : List Char :=
  ('(' :: '|' :: '[' :: '^' :: '\\' :: '0' :: ']' :: '*' :: '/' :: ')' :: [])

/-- The text `[^\0]*/?` emitted for `**` not followed by `/`. -/
def doubleStarOut : List Char :=
  ('[' :: '^' :: '\\' :: '0' :: ']' :: '*' :: '/' :: '?' :: [])

/-- The text `([^/]*/)?` emitted for a single `*` followed by `/`. -/
def starSlashOut : List Char :=
  ('(' :: '[' :: '^' :: '/' :: ']' :: '*' :: '/' :: ')' :: '?' :: [])

/-- The text `[^/]*` emitted for an ordinary `*`. -/
def starOut : List Char := ('[' :: '^' :: '/' :: ']' :: '*' :: [])

/-- The text `[^/]` emitted for `?`. -/
def questionOut : List Char := ('[' :: '^' :: '/' :: ']' :: [])

/-- Total UTF-8 byte length of a string, Go's `len()`. -/
def utf8Len (l : List Char) : Nat := (l.map (fun c => c.utf8Size)).sum

@[simp] theorem utf8Len_nil : utf8Len [] = 0 := rfl

@[simp] theorem utf8Len_cons (c : Char) (l : List Char) :
    utf8Len (c :: l) = c.utf8Size + utf8Len l := by
  simp [utf8Len]

@[simp] theorem utf8Size_star : ('*' : Char).utf8Size = 1 := by decide

@[simp] theorem utf8Size_slash : ('/' : Char).utf8Size = 1 := by decide

@[simp] theorem utf8Size_ne_zero (c : Char) : ¬ c.utf8Size = 0 := by
  have := Char.utf8Size_pos c
  omega

@[simp] theorem add_sub_sub_cancel (a w s : Nat) : a + w - s - w = a - s := by omega

@[simp] theorem index_add_utf8Size_ne_zero (n : Nat) (c : Char) :
    ¬ n + c.utf8Size = 0 := by
  have := Char.utf8Size_pos c
  omega

/-- The star-disambiguation step of parseMain, entered with the first
`*` already consumed (`st` is the post-consume state).  The four cases
mirror the Go code's lookahead: remainder starting `*/` (globstar before
a separator, where the Go code bumps the byte index by `len("*/")`),
a second `*`, a following `/`, and the ordinary single `*`.  Returns the
remaining input and the updated state. -/
def starStep : List Char → PState → List Char × PState
  | '*' :: '/' :: rest2, st =>
      (rest2, { writeStr st globstarSlashOut with index := st.index + 2 })
  | '*' :: rest2, st => (rest2, consume (writeStr st doubleStarOut) '*')
  | '/' :: rest2, st => (rest2, consume (writeStr st starSlashOut) '/')
  | rest2, st => (rest2, writeStr st starOut)

theorem starStep_fst_length (l : List Char) (st : PState) :
    (starStep l st).1.length ≤ l.length := by
  rw [starStep.eq_def]
  split <;> simp <;> omega

/-- The dialect text a `*` emits, as a function of the remaining input
(the lookahead decides among the four star forms). -/
def starChunk : List Char → List Char
  | '*' :: '/' :: _ => globstarSlashOut
  | '*' :: _ => doubleStarOut
  | '/' :: _ => starSlashOut
  | _ => starOut

/-- The input remaining after a star step, a function of the lookahead
only. -/
def starRest : List Char → List Char
  | '*' :: '/' :: rest2 => rest2
  | '*' :: rest2 => rest2
  | '/' :: rest2 => rest2
  | rest2 => rest2

@[simp] theorem starStep_fst (l : List Char) (st : PState) :
    (starStep l st).1 = starRest l := by
  rw [starStep.eq_def, starRest.eq_def]
  split <;> simp

@[simp] theorem starStep_snd_out (l : List Char) (st : PState) :
    (starStep l st).2.out = st.out ++ starChunk l := by
  rw [starStep.eq_def, starChunk.eq_def]
  split <;> simp [writeStr, consume]

@[simp] theorem starStep_snd_inp (l : List Char) (st : PState) :
    (starStep l st).2.inp = st.inp := by
  rw [starStep.eq_def]
  split <;> simp [writeStr, consume]

@[simp] theorem starStep_snd_neg (l : List Char) (st : PState) :
    (starStep l st).2.neg = st.neg := by
  rw [starStep.eq_def]
  split <;> simp [writeStr, consume]

@[simp] theorem starStep_snd_err (l : List Char) (st : PState) :
    (starStep l st).2.err = st.err := by
  rw [starStep.eq_def]
  split <;> simp [writeStr, consume]

@[simp] theorem starStep_snd_choiceNest (l : List Char) (st : PState) :
    (starStep l st).2.choiceNest = st.choiceNest := by
  rw [starStep.eq_def]
  split <;> simp [writeStr, consume]

@[simp] theorem starStep_index_len (l : List Char) (st : PState) :
    (starStep l st).2.index + utf8Len (starRest l) = st.index + utf8Len l := by
  rw [starStep.eq_def, starRest.eq_def]
  split <;> simp [writeStr, consume] <;> omega

theorem starStep_index_ge (l : List Char) (st : PState) :
    st.index ≤ (starStep l st).2.index := by
  rw [starStep.eq_def]
  split <;> simp [writeStr, consume]

@[simp] theorem starStep_index_ne_zero (l : List Char) (st : PState)
    (h : ¬ st.index = 0) : ¬ (starStep l st).2.index = 0 := by
  have := starStep_index_ge l st
  omega

@[simp] theorem starRest_not_mem (c : Char) (l : List Char)
    (h : c ∉ l) : c ∉ starRest l := by
  rw [starRest.eq_def]
  split <;> simp_all

/-- The two values glob.go's trampoline variable `p.parse` can hold:
parseMain, or parseClass remembering (as `start`) the byte index just
past the opening `[`. -/
inductive PMode where
  | main : PMode
  | cls : Nat → PMode
deriving DecidableEq

/-- glob.go parseMain and parseClass, merged over the `PMode` trampoline
state.  The third argument is the remaining input `p.in[p.index:]`; the
result is the final parser state once the trampoline in CompileGlob
stops.  The fuel argument only makes the recursion structural (hence
kernel-computable): every step consumes at least one code point and
`runParser` supplies one unit per code point plus one, so fuel never
runs out on the repository's call path; with fuel 0 the state is
returned unchanged. -/
def parseAux : Nat → PMode → List Char → PState → PState
  | 0, .main, _, st => st
  | 0, .cls _, _, st => st
  | _ + 1, .main, [], st => { st with width := 0 }
  | fuel + 1, .main, r :: rest, st =>
      if r = eofRune then consume st r
      else if r = '\\' then
        match rest with
        | [] => parseAux fuel .main [] (writeRune { consume st r with width := 0 } r)
        | nx :: rest2 =>
            if nx = eofRune then
              parseAux fuel .main rest2 (writeRune (consume (consume st r) nx) r)
            else parseAux fuel .main rest2 (writeRune (consume (consume st r) nx) nx)
      else if r = '!' then
        if (consume st r).index - (consume st r).width ≠ 0 then
          parseAux fuel .main rest (writeRune (consume st r) r)
        else parseAux fuel .main rest { consume st r with neg := !st.neg }
      else if r = '.' ∨ r = '(' ∨ r = ')' ∨ r = '^' ∨ r = '$' ∨ r = '|' ∨ r = '+' then
        parseAux fuel .main rest (writeStr (consume st r) ('\\' :: r :: []))
      else if r = '\x7b' then
        parseAux fuel .main rest { writeRune (consume st r) '(' with choiceNest := st.choiceNest + 1 }
      else if r = ',' then
        if st.choiceNest = 0 then parseAux fuel .main rest (writeRune (consume st r) r)
        else parseAux fuel .main rest (writeRune (consume st r) '|')
      else if r = '\x7d' then
        if st.choiceNest = 0 then parseAux fuel .main rest (writeRune (consume st r) r)
        else parseAux fuel .main rest { writeRune (consume st r) ')' with choiceNest := st.choiceNest - 1 }
      else if r = '[' then
        parseAux fuel (.cls (consume st r).index) rest (writeRune (consume st r) '[')
      else if r = '?' then
        parseAux fuel .main rest (writeStr (consume st r) questionOut)
      else if r = '*' then
        parseAux fuel .main (starStep rest (consume st r)).1 (starStep rest (consume st r)).2
      else parseAux fuel .main rest (writeRune (consume st r) r)
  | _ + 1, .cls _, [], st =>
      { st with width := 0, err := some ⟨st.inp, st.index, .unterminatedClass⟩ }
  | fuel + 1, .cls start, r :: rest, st =>
      if r = eofRune then
        { consume st r with
            err := some ⟨st.inp, (consume st r).index, .unterminatedClass⟩ }
      else if r = '\\' then
        match rest with
        | [] => parseAux fuel (.cls start) [] (writeRune { consume st r with width := 0 } r)
        | nx :: rest2 =>
            if nx = eofRune then
              parseAux fuel (.cls start) rest2 (writeRune (consume (consume st r) nx) r)
            else if nx = '\\' ∨ nx = '-' ∨ nx = '^' ∨ nx = '[' ∨ nx = ']' then
              parseAux fuel (.cls start) rest2 (writeStr (consume (consume st r) nx) ('\\' :: nx :: []))
            else parseAux fuel (.cls start) rest2 (writeRune (consume (consume st r) nx) nx)
      else if r = '!' then
        if (consume st r).index - start - (consume st r).width = 0 then
          parseAux fuel (.cls start) rest (writeRune (consume st r) '^')
        else parseAux fuel (.cls start) rest (writeRune (consume st r) r)
      else if r = '[' then
        parseAux fuel (.cls start) rest (writeStr (consume st r) ('\\' :: '[' :: []))
      else if r = ']' then
        parseAux fuel .main rest (writeRune (consume st r) r)
      else parseAux fuel (.cls start) rest (writeRune (consume st r) r)

/-- The parser run inside CompileGlob: fresh state with the `^(?s)`
prefix already written to the output buffer. -/
def runParser (pattern : List Char) : PState :=
  parseAux (pattern.length + 1) .main pattern
    { inp := pattern, index := 0, width := 0, neg := false, err := none,
      out := anchorPrefix, choiceNest := 0 }

/-- glob.go Glob: a compiled pattern. -/
structure Glob where
  pattern : List Char
  re : Regex
  negated : Bool
deriving DecidableEq

/-- The errors CompileGlob can return: a GlobError from the translator,
or the regexp engine's own (unwrapped) error.  The engine error is
modelled as carrying the rejected dialect text. -/
inductive CompileErr where
  | globErr : GlobError → CompileErr
  | engineErr : List Char → CompileErr
deriving DecidableEq

/-- glob.go CompileGlob: run the translator, then hand the emitted text
(terminated by `$`) to the regexp engine.  An engine failure is returned
as-is, not wrapped. -/
def CompileGlob (pattern : List Char) : Except CompileErr Glob :=
  let p := runParser pattern
  match p.err with
  | some e => .error (.globErr e)
  | none =>
      let text := p.out ++ ['$']
      match regexpCompile text with
      | none => .error (.engineErr text)
      | some re => .ok ⟨pattern, re, p.neg⟩

/-- glob.go Glob.Match: whether data matches the compiled expression
(whole-string, since the emitted text is anchored at both ends). -/
def Glob.Match (g : Glob) (data : List Char) : Bool :=
  rmatch g.re data

/-- The part of os.FileInfo that MatchInfo consults: the display name
and whether the entry is a directory. -/
structure FileInfo where
  name : List Char
  isDir : Bool

/-- glob.go Glob.MatchInfo: match the name; for a directory, also try
the name followed by a slash and OR the results. -/
def Glob.MatchInfo (g : Glob) (info : FileInfo) : Bool :=
  let m := g.Match info.name
  if info.isDir then m || g.Match (info.name ++ ['/']) else m

/-- glob.go GlobMatch: compile, then match. -/
def GlobMatch (pattern data : List Char) : Except CompileErr Bool :=
  match CompileGlob pattern with
  | .error e => .error e
  | .ok g => .ok (g.Match data)

/-- glob.go GlobMatchInfo: compile, then MatchInfo. -/
def GlobMatchInfo (pattern : List Char) (info : FileInfo) : Except CompileErr Bool :=
  match CompileGlob pattern with
  | .error e => .error e
  | .ok g => .ok (g.MatchInfo info)

/-!
### Invariants of the translator
-/

/-- The main state only appends to the output buffer. -/
theorem parseAux_out : ∀ fuel m l st, ∃ t, (parseAux fuel m l st).out = st.out ++ t := by
  intro fuel m l st
  apply parseAux.induct (fun fuel m l st => ∃ t, (parseAux fuel m l st).out = st.out ++ t)
  all_goals intros
  all_goals try (rename_i ih; obtain ⟨t, ht⟩ := ih)
  all_goals rw [parseAux.eq_def]
  all_goals simp_all [writeRune, writeStr, consume, eofRune]

/-- Once the byte index is past zero, nothing can change the negation
flag: the toggle rule fires only when the `!` was consumed at offset 0. -/
theorem parseAux_neg : ∀ fuel m l st, st.index ≠ 0 → (parseAux fuel m l st).neg = st.neg := by
  intro fuel m l st
  apply parseAux.induct (fun fuel m l st => st.index ≠ 0 → (parseAux fuel m l st).neg = st.neg)
  all_goals intros
  all_goals rw [parseAux.eq_def]
  all_goals simp_all [writeRune, writeStr, consume, eofRune]

/-- Any error the translator reports is the unterminated-class error,
carries the state's input as its pattern, and — when the remaining input
holds no NUL — an index equal to the byte offset of the end of input. -/
theorem parseAux_err : ∀ fuel m l st, st.err = none →
    ∀ e, (parseAux fuel m l st).err = some e →
      e.pattern = st.inp ∧ e.err = .unterminatedClass ∧
        (eofRune ∉ l → e.index = st.index + utf8Len l) := by
  intro fuel m l st
  apply parseAux.induct
    (fun fuel m l st => st.err = none → ∀ e, (parseAux fuel m l st).err = some e →
      e.pattern = st.inp ∧ e.err = .unterminatedClass ∧
        (eofRune ∉ l → e.index = st.index + utf8Len l))
  all_goals intros
  all_goals rename_i h0 e hsome
  all_goals rw [parseAux.eq_def] at hsome
  all_goals simp_all [writeRune, writeStr, consume, eofRune]
  all_goals intros
  all_goals (first | omega | (subst hsome; simp))

/-- The lock-step induction motive of `parseAux_syncAll`, per trampoline
state: in the main state the two runs must agree on whether the byte
index is zero when the next character is `!`; in the class state, on the
byte distance to the opening `[`. -/
def syncMotive (fuel : Nat) (m : PMode) (l : List Char) (stA : PState) : Prop :=
  match m with
  | .main => ∀ stB : PState,
      (stB.out = stA.out ∧ stB.choiceNest = stA.choiceNest ∧
        stA.err = none ∧ stB.err = none ∧
        (l.head? = some '!' → (stB.index = 0 ↔ stA.index = 0))) →
      (parseAux fuel .main l stB).out = (parseAux fuel .main l stA).out ∧
        (parseAux fuel .main l stB).err.isSome = (parseAux fuel .main l stA).err.isSome
  | .cls startA => ∀ q : Nat × PState,
      (q.2.out = stA.out ∧ q.2.choiceNest = stA.choiceNest ∧
        stA.err = none ∧ q.2.err = none ∧
        q.2.index - q.1 = stA.index - startA ∧
        startA ≤ stA.index ∧ q.1 ≤ q.2.index) →
      (parseAux fuel (.cls q.1) l q.2).out = (parseAux fuel (.cls startA) l stA).out ∧
        (parseAux fuel (.cls q.1) l q.2).err.isSome =
          (parseAux fuel (.cls startA) l stA).err.isSome

/-- Two runs of the translator on the same remaining input stay in
lock-step provided they agree on the output so far, the brace-nesting
counter, and (when the next character is `!`) on whether the byte index
is zero: the emitted text and the presence of an error are the same.
The byte index itself may differ (so may the recorded error's offset and
pattern, hence only `isSome` of the error slot), which is exactly the
situation when comparing a pattern compiled with and without a leading
`!`. -/
theorem parseAux_syncAll : ∀ (fuel : Nat) (m : PMode) (l : List Char) (stA : PState),
    syncMotive fuel m l stA := by
  intro fuel m l stA
  apply parseAux.induct syncMotive
  all_goals intros
  all_goals simp only [syncMotive] at *
  all_goals intros
  all_goals rename_i sB hh
  all_goals rw [parseAux.eq_def, parseAux.eq_def]
  all_goals simp_all [writeRune, writeStr, consume, eofRune]
  all_goals
    (rename_i ih
     try rcases hh with ⟨u1, u2, u3, u4, u5, u6, u7⟩
     apply ih <;> (first | rfl | omega | simp_all | skip))
  all_goals omega

/-- The main-state instance of `parseAux_syncAll`, the form the claims
use. -/
theorem parseAux_sync (fuel : Nat) (l : List Char) (stA stB : PState)
    (h : stB.out = stA.out ∧ stB.choiceNest = stA.choiceNest ∧
      stA.err = none ∧ stB.err = none ∧
      (l.head? = some '!' → (stB.index = 0 ↔ stA.index = 0))) :
    (parseAux fuel .main l stB).out = (parseAux fuel .main l stA).out ∧
      (parseAux fuel .main l stB).err.isSome = (parseAux fuel .main l stA).err.isSome :=
  parseAux_syncAll fuel .main l stA stB h

/-!
### Semantic facts about emitted expressions
-/

/-- NUL is the least code point, so `c ≤ NUL` pins `c` down. -/
theorem le_eofRune_iff (c : Char) : c ≤ eofRune ↔ c = eofRune := by
  constructor
  · intro h
    have h2 : eofRune ≤ c := by
      rw [Char.le_def]
      show (0 : UInt32) ≤ c.val
      exact Nat.zero_le _
    apply Char.eq_of_val_eq
    exact UInt32.le_antisymm (Char.le_def.mp h) (Char.le_def.mp h2)
  · intro h
    subst h
    exact le_refl _

/-- Membership in the emitted `[^\0]` class is exactly "not NUL". -/
theorem inCls_nul (c : Char) :
    inCls true ((eofRune, eofRune) :: []) c = true ↔ ¬ c = eofRune := by
  have hle : eofRune ≤ c := by
    rw [Char.le_def]
    show (0 : UInt32) ≤ c.val
    exact Nat.zero_le _
  simp [inCls, classElem, hle, le_eofRune_iff]

/-- The class expression `[^\0]` of the globstar translation. -/
def nulCls : Regex := .cls true ((eofRune, eofRune) :: [])

/-- `[^\0]*` accepts every NUL-free string. -/
theorem starNonNul (w : List Char) (h : eofRune ∉ w) :
    RMatch (.star nulCls) w := by
  induction w with
  | nil => exact .starNil
  | cons c t ih =>
      have hc : RMatch nulCls (c :: []) := .cls ((inCls_nul c).mpr (by simp_all [eq_comm]))
      have := @RMatch.starCons nulCls (c :: []) t
        (by simp) hc (ih (by simp_all))
      simpa using this

/-- The expression the pattern `**/file` compiles to: the globstar
subexpression `(|[^\0]*/)` followed by the literals `file`. -/
def fileTail : Regex :=
  .cat (.lit 'f') (.cat (.lit 'i') (.cat (.lit 'l') (.cat (.lit 'e') .eps)))

def globstarRe : Regex :=
  .cat (.alt .eps (.cat (.star nulCls) (.cat (.lit '/') .eps))) fileTail

theorem fileTail_matches : RMatch fileTail ('f' :: 'i' :: 'l' :: 'e' :: []) :=
  .cat (.lit 'f') (.cat (.lit 'i') (.cat (.lit 'l') (.cat (.lit 'e') .eps)))

/-- A candidate made of zero or more slash-terminated components
followed by `file`. -/
def globstarCand (comps : List (List Char)) : List Char :=
  (comps.map (fun c => c ++ ('/' :: []))).flatten ++ ('f' :: 'i' :: 'l' :: 'e' :: [])

theorem join_slash_shape (comps : List (List Char)) (hne : comps ≠ [])
    (h : ∀ c ∈ comps, eofRune ∉ c) :
    ∃ w, (comps.map (fun c => c ++ ('/' :: []))).flatten = w ++ ('/' :: []) ∧
      eofRune ∉ w := by
  induction comps with
  | nil => exact absurd rfl hne
  | cons c cs ih =>
      cases cs with
      | nil =>
          refine ⟨c, by simp, ?_⟩
          have := h c (by simp)
          simpa using this
      | cons c2 cs2 =>
          obtain ⟨w, hw, hnw⟩ := ih (by simp)
            (by intro x hx; exact h x (by simp [hx]))
          refine ⟨c ++ '/' :: w, ?_, ?_⟩
          · simp_all [List.append_assoc]
          · have := h c (by simp)
            simp_all [eofRune]

theorem globstarRe_matches (comps : List (List Char))
    (h : ∀ c ∈ comps, eofRune ∉ c) :
    RMatch globstarRe (globstarCand comps) := by
  by_cases hn : comps = []
  · subst hn
    have := RMatch.cat
      (@RMatch.altL Regex.eps (.cat (.star nulCls) (.cat (.lit '/') .eps)) []
        RMatch.eps) fileTail_matches
    simpa [globstarCand, globstarRe] using this
  · obtain ⟨w, hw, hnw⟩ := join_slash_shape comps hn h
    have hsl : RMatch (.cat (.lit '/') .eps) ('/' :: []) := by
      have := RMatch.cat (RMatch.lit '/') RMatch.eps
      simpa using this
    have h1 : RMatch (.cat (.star nulCls) (.cat (.lit '/') .eps)) (w ++ ('/' :: [])) :=
      .cat (starNonNul w hnw) hsl
    have h2 := RMatch.cat
      (@RMatch.altR Regex.eps (.cat (.star nulCls) (.cat (.lit '/') .eps)) (w ++ ('/' :: [])) h1)
      fileTail_matches
    rw [globstarRe, globstarCand, hw]
    simpa [List.append_assoc] using h2

/-!
### Variable substitution (subst.go)

`Substitute` scans for `${...}` references.  The model below follows the
Go loop: characters outside a reference are copied through; an
unterminated reference makes the loop `break outer`, which copies the
text from the `${` to the end of the input verbatim; after a completed
reference the scan resumes one byte past the closing `}` *plus one*
(the loop's own `i++`), so the character right after a substitution is
copied without being examined.

The regexp replacement step (`regexp.Compile` plus `ReplaceAllString`
with the `reGroup` template rewrite) is a Go library facility external
to this repository; it is taken as the parameter `resub`, so every
theorem below holds for any engine behaviour.  The `CanSubstitute`
interface hook is modelled as the default always-true behaviour, which
is what any VariableMap without that optional method gets
(SimpleVariableMap in particular).
-/

/-- The error shapes Substitute can produce (Go formats messages; the
model carries the data the message is built from). -/
inductive SubstError where
  | undefinedVariable : List Char → SubstError
  | malformedRegexpSubstIncomplete : List Char → SubstError
  | malformedRegexpSubstParts : List Char → SubstError
  | malformedVariableSubst : List Char → SubstError
  | engineErr : List Char → SubstError
deriving DecidableEq

/-- strings.IndexAny: index of the first character drawn from `cs`. -/
def indexAny (l : List Char) (cs : List Char) : Option Nat :=
  l.findIdx? (fun c => cs.contains c)

/-- strings.IndexByte: index of the first occurrence of `c`. -/
def indexByte (l : List Char) (c : Char) : Option Nat :=
  l.findIdx? (fun x => x = c)

/-- The slash-counting scan of the `${name/.../...}` form:
`for ; j < len(s) && count < 3; j++ { switch s[j] { case '\\': j++ ; case '/': count++ } }`.
Returns the number of positions consumed and the final count. -/
def scanSlash : List Char → Nat → Nat × Nat
  | [], count => (0, count)
  | c :: l, count =>
      if 3 ≤ count then (0, count)
      else if c = '\\' then
        match l with
        | [] => ((scanSlash [] count).1 + 2, (scanSlash [] count).2)
        | _ :: l2 => ((scanSlash l2 count).1 + 2, (scanSlash l2 count).2)
      else if c = '/' then
        ((scanSlash l (count + 1)).1 + 1, (scanSlash l (count + 1)).2)
      else
        ((scanSlash l count).1 + 1, (scanSlash l count).2)

/-- strings.FieldsFunc of the `/...` body: the Go closure's shadowed
index variable `i` is never advanced, so its backslash test is vacuous
and every `/` separates; FieldsFunc drops empty fields. -/
def fieldsSlash (l : List Char) : List (List Char) :=
  (l.splitOn '/').filter (fun x => !x.isEmpty)

/-- The shared `switch deref[0]` step of Substitute: apply a `:-`, `:+`
or `/regexp/replace` modifier to the looked-up value.  `def_` is the
text after the `:` (or from the first `/`), `present` whether the
variable was found, `whole` the `${...}` source text used in the
malformed-substitution error. -/
def applyDef (resub : List Char → List Char → List Char → Except SubstError (List Char))
    (def_ value : List Char) (present : Bool) (whole : List Char) :
    Except SubstError (List Char) :=
  let deref := if def_ = [] then (Char.ofNat 0) :: [] else def_
  match deref with
  | '-' :: t => .ok (if present then value else t)
  | '+' :: t => .ok (if present then t else value)
  | '/' :: _ =>
      match fieldsSlash def_ with
      | p0 :: p1 :: [] => resub p0 p1 value
      | _ => .error (.malformedRegexpSubstParts def_)
  | _ => .error (.malformedVariableSubst whole)

/-- The scanning loop of subst.go Substitute.  `vars` is the
VariableMap's Get; `resub` the abstracted regexp replacement.  The
result layers Option over Except: `none` models a run that panics.  The
one reachable panic is in the incomplete `/`-form: when the slash scan's
backslash skip (`case '\\': j++`) steps past the last byte, `j` ends at
`len(s)+1` and the error construction `s[subsStart:j]` faults with a
slice-bounds violation instead of returning; the guard
`rest.length < d + n` below is exactly that condition. -/
def substLoop (resub : List Char → List Char → List Char → Except SubstError (List Char))
    (vars : List Char → Option (List Char)) :
    Nat → List Char → Option (Except SubstError (List Char))
  | 0, l => some (.ok l)
  | _ + 1, [] => some (.ok [])
  | fuel + 1, '$' :: '\x7b' :: rest =>
      match indexAny rest (':' :: '/' :: '\x7d' :: []) with
      | none => some (.ok ('$' :: '\x7b' :: rest))
      | some d =>
          let name := rest.take d
          let value := (vars name).getD []
          let present := (vars name).isSome
          match rest.get? d with
          | some ':' =>
              let r2 := rest.drop (d + 1)
              match indexByte r2 '\x7d' with
              | none => some (.ok ('$' :: '\x7b' :: rest))
              | some d2 =>
                  let whole := '$' :: '\x7b' :: rest.take (d + 1 + d2 + 1)
                  match applyDef resub (r2.take d2) value present whole with
                  | .error e => some (.error e)
                  | .ok v =>
                      match (rest.drop (d + 1)).drop (d2 + 1) with
                      | [] => some (.ok v)
                      | c :: r3 =>
                          match substLoop resub vars fuel r3 with
                          | none => none
                          | some (.error e) => some (.error e)
                          | some (.ok t) => some (.ok (v ++ c :: t))
          | some '/' =>
              let r2 := rest.drop d
              let n := (scanSlash r2 1).1
              let cnt := (scanSlash r2 1).2
              if cnt ≠ 3 then
                if rest.length < d + n then none
                else
                  some (.error (.malformedRegexpSubstIncomplete
                    ('$' :: '\x7b' :: rest.take (d + n))))
              else
                match indexByte (r2.drop n) '\x7d' with
                | none => some (.ok ('$' :: '\x7b' :: rest))
                | some d2 =>
                    let whole := '$' :: '\x7b' :: rest.take (d + n + d2 + 1)
                    match applyDef resub (r2.take (n + d2)) value present whole with
                    | .error e => some (.error e)
                    | .ok v =>
                        match (rest.drop d).drop (n + d2 + 1) with
                        | [] => some (.ok v)
                        | c :: r3 =>
                            match substLoop resub vars fuel r3 with
                            | none => none
                            | some (.error e) => some (.error e)
                            | some (.ok t) => some (.ok (v ++ c :: t))
          | some '\x7d' =>
              if present then
                match rest.drop (d + 1) with
                | [] => some (.ok value)
                | c :: r3 =>
                    match substLoop resub vars fuel r3 with
                    | none => none
                    | some (.error e) => some (.error e)
                    | some (.ok t) => some (.ok (value ++ c :: t))
              else some (.error (.undefinedVariable name))
          | _ => some (.ok ('$' :: '\x7b' :: rest))
  | fuel + 1, c :: rest =>
      match substLoop resub vars fuel rest with
      | none => none
      | some (.error e) => some (.error e)
      | some (.ok t) => some (.ok (c :: t))

/-- subst.go Substitute.  `none` is a run that panics rather than
returning. -/
def Substitute (resub : List Char → List Char → List Char → Except SubstError (List Char))
    (s : List Char) (vars : List Char → Option (List Char)) :
    Option (Except SubstError (List Char)) :=
  substLoop resub vars (s.length + 1) s

/-!
### Inversion facts for small emitted expressions
-/

theorem char_le_antisymm {a b : Char} (h1 : a ≤ b) (h2 : b ≤ a) : a = b :=
  Char.eq_of_val_eq (UInt32.le_antisymm (Char.le_def.mp h1) (Char.le_def.mp h2))

/-- Membership in the emitted `[^/]` class is exactly "not a slash". -/
theorem inCls_slash (c : Char) :
    inCls true (('/', '/') :: []) c = true ↔ ¬ c = '/' := by
  constructor
  · intro h hc
    subst hc
    simp [inCls, classElem] at h
  · intro h
    have hfalse : (decide ('/' ≤ c) && decide (c ≤ '/')) = false := by
      rcases hb : (decide ('/' ≤ c) && decide (c ≤ '/')) with _ | _
      · rfl
      · simp only [Bool.and_eq_true, decide_eq_true_eq] at hb
        exact absurd (char_le_antisymm hb.2 hb.1) h
    simp [inCls, classElem, hfalse]

theorem catLitEps_iff (d : Char) (s : List Char) :
    RMatch (.cat (.lit d) .eps) s ↔ s = (d :: []) := by
  constructor
  · intro h
    cases h with
    | cat h1 h2 =>
        cases h1
        cases h2
        rfl
  · intro h
    subst h
    simpa using RMatch.cat (RMatch.lit d) RMatch.eps

theorem catClsEps_iff (n : Bool) (it : List (Char × Char)) (s : List Char) :
    RMatch (.cat (.cls n it) .eps) s ↔ ∃ c, s = (c :: []) ∧ inCls n it c = true := by
  constructor
  · intro h
    cases h with
    | @cat _ _ s1 s2 h1 h2 =>
        cases h1 with
        | cls hc =>
            cases h2
            exact ⟨_, by simp, hc⟩
  · intro h
    obtain ⟨c, hs, hc⟩ := h
    subst hs
    simpa using RMatch.cat (RMatch.cls hc) RMatch.eps

/-!
### The claims
-/

/-- C1: a pattern `**/file` compiles, and a globstar before a separator
matches zero or more whole leading path components: the four sample
candidates `file`, `/file`, `y/file`, `x/y/file` are accepted, and so is
every candidate made of slash-terminated (NUL-free) components followed
by `file`. -/
theorem c1_globstar_leading_components (comps : List (List Char))
    (h : ∀ c ∈ comps, eofRune ∉ c) :
    ∃ g, CompileGlob ('*' :: '*' :: '/' :: 'f' :: 'i' :: 'l' :: 'e' :: []) = .ok g ∧
      g.Match ('f' :: 'i' :: 'l' :: 'e' :: []) = true ∧
      g.Match ('/' :: 'f' :: 'i' :: 'l' :: 'e' :: []) = true ∧
      g.Match ('y' :: '/' :: 'f' :: 'i' :: 'l' :: 'e' :: []) = true ∧
      g.Match ('x' :: '/' :: 'y' :: '/' :: 'f' :: 'i' :: 'l' :: 'e' :: []) = true ∧
      g.Match (globstarCand comps) = true := by
  refine ⟨⟨('*' :: '*' :: '/' :: 'f' :: 'i' :: 'l' :: 'e' :: []), globstarRe, false⟩,
    by decide, by decide, by decide, by decide, by decide, ?_⟩
  show rmatch globstarRe (globstarCand comps) = true
  exact (rmatch_iff_RMatch _ _).mpr (globstarRe_matches comps h)

theorem c1_globstar_leading_components_witness :
    (∀ c ∈ (('x' :: []) :: ('y' :: []) :: ([] : List (List Char))), eofRune ∉ c) ∧
    (∃ g, CompileGlob ('*' :: '*' :: '/' :: 'f' :: 'i' :: 'l' :: 'e' :: []) = .ok g ∧
      g.Match ('f' :: 'i' :: 'l' :: 'e' :: []) = true ∧
      g.Match ('/' :: 'f' :: 'i' :: 'l' :: 'e' :: []) = true ∧
      g.Match ('y' :: '/' :: 'f' :: 'i' :: 'l' :: 'e' :: []) = true ∧
      g.Match ('x' :: '/' :: 'y' :: '/' :: 'f' :: 'i' :: 'l' :: 'e' :: []) = true ∧
      g.Match (globstarCand (('x' :: []) :: ('y' :: []) :: [])) = true) :=
  ⟨by decide, c1_globstar_leading_components (('x' :: []) :: ('y' :: []) :: []) (by decide)⟩

/-- C5 (counterexample): the claim says `?` matches every single code
point including `/`; but `?` compiles to the class `[^/]`, which rejects
the candidate `/`. -/
theorem c5_counterexample : GlobMatch ('?' :: []) ('/' :: []) = .ok false := by decide

/-- C5 (amended): the compiled pattern `?` matches every candidate of
exactly one code point except `/`, and rejects `/`, the empty candidate,
and every candidate of two or more code points. -/
theorem c5_question_single (c c1 c2 : Char) (t : List Char) (hc : ¬ c = '/') :
    ∃ g, CompileGlob ('?' :: []) = .ok g ∧
      g.Match (c :: []) = true ∧
      g.Match ('/' :: []) = false ∧
      g.Match [] = false ∧
      g.Match (c1 :: c2 :: t) = false := by
  refine ⟨⟨('?' :: []), .cat (.cls true (('/', '/') :: [])) .eps, false⟩,
    by decide, ?_, by decide, by decide, ?_⟩
  · show rmatch _ _ = true
    exact (rmatch_iff_RMatch _ _).mpr
      ((catClsEps_iff _ _ _).mpr ⟨c, rfl, (inCls_slash c).mpr hc⟩)
  · show rmatch _ _ = false
    rcases hb : rmatch (.cat (.cls true (('/', '/') :: [])) .eps) (c1 :: c2 :: t) with _ | _
    · rfl
    · have := (rmatch_iff_RMatch _ _).mp hb
      obtain ⟨d, hd, _⟩ := (catClsEps_iff _ _ _).mp this
      simp at hd

theorem c5_question_single_witness :
    (¬ ('a' : Char) = '/') ∧
    (∃ g, CompileGlob ('?' :: []) = .ok g ∧
      g.Match ('a' :: []) = true ∧
      g.Match ('/' :: []) = false ∧
      g.Match [] = false ∧
      g.Match ('a' :: 'b' :: []) = false) :=
  ⟨by decide, c5_question_single 'a' 'a' 'b' [] (by decide)⟩

/-- C7: MatchInfo ORs in the trailing-slash test only for directories,
and the pattern `*/` rejects a non-directory `dir` but accepts a
directory `dir`. -/
theorem c7_matchinfo_directories :
    (∀ (g : Glob) (info : FileInfo),
      g.MatchInfo info =
        (g.Match info.name || (info.isDir && g.Match (info.name ++ ('/' :: []))))) ∧
    GlobMatchInfo ('*' :: '/' :: []) ⟨('d' :: 'i' :: 'r' :: []), false⟩ = .ok false ∧
    GlobMatchInfo ('*' :: '/' :: []) ⟨('d' :: 'i' :: 'r' :: []), true⟩ = .ok true := by
  refine ⟨?_, by decide, by decide⟩
  intro g info
  rcases info with ⟨name, isDir⟩
  cases isDir <;> simp [Glob.MatchInfo]

@[simp] theorem utf8Size_bang : ('!' : Char).utf8Size = 1 := by decide

/-- One step of runParser on a leading `!`: the toggle rule fires (byte
index 0) and nothing is written. -/
theorem runParser_bang (p : List Char) :
    runParser ('!' :: p) =
      parseAux (p.length + 1) .main p
        { inp := '!' :: p, index := 1, width := 1, neg := true, err := none,
          out := anchorPrefix, choiceNest := 0 } := by
  unfold runParser
  rw [parseAux.eq_def]
  simp +decide [consume, eofRune]

/-- Two steps of runParser on `!!`: the first toggles, the second is a
literal. -/
theorem runParser_bang_bang (rest : List Char) :
    runParser ('!' :: '!' :: rest) =
      parseAux (rest.length + 1) .main rest
        { inp := '!' :: '!' :: rest, index := 2, width := 1, neg := true, err := none,
          out := anchorPrefix ++ ('!' :: []), choiceNest := 0 } := by
  rw [runParser_bang ('!' :: rest)]
  simp only [List.length_cons]
  rw [parseAux.eq_def]
  simp +decide [consume, writeRune, eofRune]



/-- C4 (counterexample): on "!!r" the flag ends true (toggled once, not
twice) and the second `!` is emitted as a literal. -/
theorem c4_counterexample :
    (runParser ('!' :: '!' :: 'r' :: [])).neg = true ∧
    (runParser ('!' :: '!' :: 'r' :: [])).out = anchorPrefix ++ ('!' :: 'r' :: []) := by
  decide

/-- C4 (amended): only the first leading `!` toggles the negation flag;
the second one no longer sits at byte offset 0 (the toggle consumed one
byte), so it is emitted as a literal `!` right after the anchor prefix,
and the flag stays true for the rest of the run. -/
theorem c4_double_bang (rest : List Char) :
    (runParser ('!' :: '!' :: rest)).neg = true ∧
    ∃ t, (runParser ('!' :: '!' :: rest)).out = anchorPrefix ++ '!' :: t := by
  rw [runParser_bang_bang rest]
  constructor
  · rw [parseAux_neg _ _ _ _ (by simp)]
  · obtain ⟨t, ht⟩ := parseAux_out (rest.length + 1) .main rest
      { inp := '!' :: '!' :: rest, index := 2, width := 1, neg := true, err := none,
        out := anchorPrefix ++ ('!' :: []), choiceNest := 0 }
    exact ⟨t, by rw [ht]; simp⟩

/-- C3 (counterexample): on "{a" the engine rejects the emitted text
`^(?s)(a$` and CompileGlob returns the engine's error bare, not wrapped
in a GlobError. -/
theorem c3_counterexample :
    CompileGlob ('\x7b' :: 'a' :: []) =
      .error (.engineErr ('^' :: '(' :: '?' :: 's' :: ')' :: '(' :: 'a' :: '$' :: [])) := by
  decide

/-- C3 (amended): whenever the translator itself reports no error but
the engine rejects the emitted text, CompileGlob returns the engine's
error as-is (the model tags it engineErr, carrying the rejected text),
not a GlobError. -/
theorem c3_engine_error_unwrapped (p : List Char)
    (h1 : (runParser p).err = none)
    (h2 : regexpCompile ((runParser p).out ++ ('$' :: [])) = none) :
    CompileGlob p = .error (.engineErr ((runParser p).out ++ ('$' :: []))) := by
  simp only [CompileGlob]
  rw [h1]
  simp [h2]

theorem c3_engine_error_unwrapped_witness :
    ((runParser ('\x7b' :: 'a' :: [])).err = none ∧
      regexpCompile ((runParser ('\x7b' :: 'a' :: [])).out ++ ('$' :: [])) = none) ∧
    CompileGlob ('\x7b' :: 'a' :: []) =
      .error (.engineErr ((runParser ('\x7b' :: 'a' :: [])).out ++ ('$' :: []))) :=
  ⟨⟨by decide, by decide⟩,
    c3_engine_error_unwrapped ('\x7b' :: 'a' :: []) (by decide) (by decide)⟩

/-- C6 (counterexample): the unterminated class "[a\x00b" fails at the
NUL, whose byte offset 3 is less than the pattern's byte length 4. -/
theorem c6_counterexample :
    CompileGlob ('[' :: 'a' :: eofRune :: 'b' :: []) =
      .error (.globErr ⟨('[' :: 'a' :: eofRune :: 'b' :: []), 3, .unterminatedClass⟩) ∧
    utf8Len ('[' :: 'a' :: eofRune :: 'b' :: []) = 4 := by
  decide

/-- C6 (amended): for a NUL-free pattern, any GlobError CompileGlob
returns is the unterminated-class error, records the pattern itself, and
its Index equals the pattern's byte length. -/
theorem c6_unterminated_class_index (p : List Char) (e : GlobError)
    (hnul : eofRune ∉ p)
    (h : CompileGlob p = .error (.globErr e)) :
    e.err = .unterminatedClass ∧ e.index = utf8Len p ∧ e.pattern = p := by
  have hsome : (runParser p).err = some e := by
    rcases herr : (runParser p).err with _ | e2
    · exfalso
      rcases hc : regexpCompile ((runParser p).out ++ ('$' :: [])) with _ | r <;>
        simp [CompileGlob, herr, hc] at h
    · simp [CompileGlob, herr] at h
      rw [h]
  have H := parseAux_err (p.length + 1) .main p
    { inp := p, index := 0, width := 0, neg := false, err := none,
      out := anchorPrefix, choiceNest := 0 } rfl e (by rw [← hsome]; rfl)
  refine ⟨H.2.1, ?_, H.1⟩
  have := H.2.2 hnul
  simpa using this

theorem c6_unterminated_class_index_witness :
    (eofRune ∉ ('[' :: 'a' :: 'b' :: 'c' :: []) ∧
      CompileGlob ('[' :: 'a' :: 'b' :: 'c' :: []) =
        .error (.globErr ⟨('[' :: 'a' :: 'b' :: 'c' :: []), 4, .unterminatedClass⟩)) ∧
    (GlobError.err ⟨('[' :: 'a' :: 'b' :: 'c' :: []), 4, .unterminatedClass⟩ = .unterminatedClass ∧
      GlobError.index ⟨('[' :: 'a' :: 'b' :: 'c' :: []), 4, .unterminatedClass⟩ =
        utf8Len ('[' :: 'a' :: 'b' :: 'c' :: []) ∧
      GlobError.pattern ⟨('[' :: 'a' :: 'b' :: 'c' :: []), 4, .unterminatedClass⟩ =
        ('[' :: 'a' :: 'b' :: 'c' :: [])) :=
  ⟨⟨by decide, by decide⟩,
    c6_unterminated_class_index ('[' :: 'a' :: 'b' :: 'c' :: []) _ (by decide) (by decide)⟩



/-- CompileGlob-level congruence: two patterns whose translator runs end
with the same output text and the same error presence produce the same
match outcome (the compiled Glob values may still differ in their
recorded pattern and negation flag). -/
theorem compileMatch_congr (s pq pp : List Char)
    (hout : (runParser pq).out = (runParser pp).out)
    (herr : (runParser pq).err.isSome = (runParser pp).err.isSome) :
    (CompileGlob pq).toOption.map (fun g => g.Match s) =
      (CompileGlob pp).toOption.map (fun g => g.Match s) := by
  rcases hA : (runParser pp).err with _ | e
  · have hB : (runParser pq).err = none := by
      rw [hA] at herr
      simpa using herr
    simp only [CompileGlob, hA, hB, hout]
    rcases hc : regexpCompile ((runParser pp).out ++ ('$' :: [])) with _ | r <;>
      simp [hc, Glob.Match, Except.toOption]
  · have hB : ∃ e2, (runParser pq).err = some e2 := by
      rw [hA] at herr
      simpa [Option.isSome_iff_exists] using herr
    obtain ⟨e2, hB⟩ := hB
    simp [CompileGlob, hA, hB, Except.toOption]

/-- C8: a leading `!` changes only the recorded negation flag, never the
match outcome: for a pattern not itself starting with `!`, compiling
`!p` and `p` gives the same Match result on every candidate (including
the case where both compilations fail). -/
theorem c8_negation_flag_unapplied (p s : List Char) (h : p.head? ≠ some '!') :
    (CompileGlob ('!' :: p)).toOption.map (fun g => g.Match s) =
      (CompileGlob p).toOption.map (fun g => g.Match s) := by
  have hsync := parseAux_sync (p.length + 1) p
    { inp := p, index := 0, width := 0, neg := false, err := none,
      out := anchorPrefix, choiceNest := 0 }
    { inp := '!' :: p, index := 1, width := 1, neg := true, err := none,
      out := anchorPrefix, choiceNest := 0 }
    ⟨rfl, rfl, rfl, rfl, fun hh => absurd hh h⟩
  refine compileMatch_congr s _ _ ?_ ?_
  · rw [runParser_bang p]
    unfold runParser
    exact hsync.1
  · rw [runParser_bang p]
    unfold runParser
    exact hsync.2

theorem c8_negation_flag_unapplied_witness :
    (('a' :: []).head? ≠ some '!') ∧
    ((CompileGlob ('!' :: 'a' :: [])).toOption.map (fun g => g.Match ('a' :: [])) =
      (CompileGlob ('a' :: [])).toOption.map (fun g => g.Match ('a' :: []))) :=
  ⟨by decide, c8_negation_flag_unapplied ('a' :: []) ('a' :: []) (by decide)⟩

/-- C9 (counterexample): in the pattern `\⟨NUL⟩.` the NUL is consumed by
the backslash rule as the escaped character, the backslash is emitted,
and parsing continues with `.` (emitted `\.`) — the text after the NUL
is not ignored, and the compiled pattern matches "\z", which the
truncated pattern `\` rejects (its text `^(?s)\$` matches only
candidates beginning with a literal dollar). -/
theorem c9_counterexample :
    (runParser ('\\' :: eofRune :: '.' :: [])).out =
      anchorPrefix ++ ('\\' :: '\\' :: '.' :: []) ∧
    GlobMatch ('\\' :: eofRune :: '.' :: []) ('\\' :: 'z' :: []) = .ok true ∧
    GlobMatch ('\\' :: []) ('\\' :: 'z' :: []) = .ok false := by
  decide

/-- C9 (amended): a NUL at the head of the remaining input in main state
stops the parse (it is treated exactly like end of input), but a NUL
consumed by the backslash escape rule does not stop it; a pattern whose
NUL is not escape-protected, such as "a\x00b", compiles as if truncated
and matches exactly "a". -/
theorem c9_nul_stops_main_parse (fuel : Nat) (l : List Char) (st : PState) (s : List Char) :
    parseAux (fuel + 1) .main (eofRune :: l) st = consume st eofRune ∧
    parseAux (fuel + 1) .main ('\\' :: eofRune :: l) st =
      parseAux fuel .main l (writeRune (consume (consume st '\\') eofRune) '\\') ∧
    GlobMatch ('a' :: eofRune :: 'b' :: []) s = .ok (decide (s = ('a' :: []))) := by
  refine ⟨?_, ?_, ?_⟩
  · rw [parseAux.eq_def]
    simp
  · rw [parseAux.eq_def]
    simp +decide [eofRune]
  · have hg : CompileGlob ('a' :: eofRune :: 'b' :: []) =
        .ok ⟨('a' :: eofRune :: 'b' :: []), .cat (.lit 'a') .eps, false⟩ := by decide
    simp only [GlobMatch, hg]
    show Except.ok (rmatch (.cat (.lit 'a') .eps) s) = .ok (decide (s = ('a' :: [])))
    congr 1
    rcases hd : decide (s = ('a' :: [])) with _ | _
    · have hs : ¬ s = ('a' :: []) := of_decide_eq_false hd
      rcases hb : rmatch (.cat (.lit 'a') .eps) s with _ | _
      · rfl
      · exact absurd ((catLitEps_iff 'a' s).mp ((rmatch_iff_RMatch s _).mp hb)) hs
    · have hs : s = ('a' :: []) := of_decide_eq_true hd
      subst hs
      decide



/-- C10 (counterexample): Substitute can fail on an unterminated
reference.  On "${x/y" (no closing brace, slash count 2) it returns the
malformed-regexp-substitution error; on "${x/\" the slash scan's
backslash skip steps past the end of the input and the run panics
(slice bounds out of range) instead of returning at all. -/
theorem c10_counterexample :
    Substitute (fun _ _ v => .ok v) ('$' :: '\x7b' :: 'x' :: '/' :: 'y' :: [])
        (fun _ => none) =
      some (.error (.malformedRegexpSubstIncomplete
        ('$' :: '\x7b' :: 'x' :: '/' :: 'y' :: []))) ∧
    Substitute (fun _ _ v => .ok v) ('$' :: '\x7b' :: 'x' :: '/' :: '\\' :: [])
        (fun _ => none) = none := by
  decide

/-- C10 (amended): an unterminated reference is copied verbatim when the
scan finds no `:`, `/` or `\x7d` at all (r1), when the `:`-form finds no
closing brace (r2), and when a complete `/re/repl` form (slash count 3)
finds no closing brace (r3).  An incomplete `/`-form (slash count still
below 3 at end of input) does not copy verbatim: if the slash scan ends
within the input (r4) it returns the malformed-regexp-substitution
error, and if the scan's backslash skip stepped past the end of the
input (r5) the run panics while building that error's text. -/
theorem c10_unterminated_reference
    (resub : List Char → List Char → List Char → Except SubstError (List Char))
    (vars : List Char → Option (List Char))
    (r1 r2 r3 r4 r5 : List Char) (d2 d3 d4 d5 : Nat)
    (h1 : indexAny r1 (':' :: '/' :: '\x7d' :: []) = none)
    (h2a : indexAny r2 (':' :: '/' :: '\x7d' :: []) = some d2)
    (h2b : r2[d2]? = some ':')
    (h2c : indexByte (r2.drop (d2 + 1)) '\x7d' = none)
    (h3a : indexAny r3 (':' :: '/' :: '\x7d' :: []) = some d3)
    (h3b : r3[d3]? = some '/')
    (h3c : (scanSlash (r3.drop d3) 1).2 = 3)
    (h3d : indexByte (r3.drop (d3 + (scanSlash (r3.drop d3) 1).1)) '\x7d' = none)
    (h4a : indexAny r4 (':' :: '/' :: '\x7d' :: []) = some d4)
    (h4b : r4[d4]? = some '/')
    (h4c : (scanSlash (r4.drop d4) 1).2 ≠ 3)
    (h4d : d4 + (scanSlash (r4.drop d4) 1).1 ≤ r4.length)
    (h5a : indexAny r5 (':' :: '/' :: '\x7d' :: []) = some d5)
    (h5b : r5[d5]? = some '/')
    (h5c : (scanSlash (r5.drop d5) 1).2 ≠ 3)
    (h5d : r5.length < d5 + (scanSlash (r5.drop d5) 1).1) :
    Substitute resub ('$' :: '\x7b' :: r1) vars = some (.ok ('$' :: '\x7b' :: r1)) ∧
    Substitute resub ('$' :: '\x7b' :: r2) vars = some (.ok ('$' :: '\x7b' :: r2)) ∧
    Substitute resub ('$' :: '\x7b' :: r3) vars = some (.ok ('$' :: '\x7b' :: r3)) ∧
    Substitute resub ('$' :: '\x7b' :: r4) vars =
      some (.error (.malformedRegexpSubstIncomplete
        ('$' :: '\x7b' :: r4.take (d4 + (scanSlash (r4.drop d4) 1).1)))) ∧
    Substitute resub ('$' :: '\x7b' :: r5) vars = none := by
  refine ⟨?_, ?_, ?_, ?_, ?_⟩
  · simp [Substitute, substLoop, h1]
  · simp [Substitute, substLoop, h2a, h2b, h2c]
  · simp [Substitute, substLoop, h3a, h3b, h3c, h3d]
  · simp [Substitute, substLoop, h4a, h4b, h4c, Nat.not_lt.mpr h4d]
  · simp [Substitute, substLoop, h5a, h5b, h5c, h5d]

theorem c10_unterminated_reference_witness :
    (indexAny ('x' :: []) (':' :: '/' :: '\x7d' :: []) = none ∧
      indexAny ('x' :: ':' :: '-' :: 'y' :: []) (':' :: '/' :: '\x7d' :: []) = some 1 ∧
      ('x' :: ':' :: '-' :: 'y' :: [])[1]? = some ':' ∧
      indexByte (('x' :: ':' :: '-' :: 'y' :: []).drop 2) '\x7d' = none ∧
      indexAny ('x' :: '/' :: 'y' :: '/' :: 'z' :: []) (':' :: '/' :: '\x7d' :: []) = some 1 ∧
      ('x' :: '/' :: 'y' :: '/' :: 'z' :: [])[1]? = some '/' ∧
      (scanSlash (('x' :: '/' :: 'y' :: '/' :: 'z' :: []).drop 1) 1).2 = 3 ∧
      indexByte (('x' :: '/' :: 'y' :: '/' :: 'z' :: []).drop
        (1 + (scanSlash (('x' :: '/' :: 'y' :: '/' :: 'z' :: []).drop 1) 1).1)) '\x7d' = none ∧
      indexAny ('x' :: '/' :: 'y' :: []) (':' :: '/' :: '\x7d' :: []) = some 1 ∧
      ('x' :: '/' :: 'y' :: [])[1]? = some '/' ∧
      (scanSlash (('x' :: '/' :: 'y' :: []).drop 1) 1).2 ≠ 3 ∧
      1 + (scanSlash (('x' :: '/' :: 'y' :: []).drop 1) 1).1 ≤
        ('x' :: '/' :: 'y' :: []).length ∧
      indexAny ('x' :: '/' :: '\\' :: []) (':' :: '/' :: '\x7d' :: []) = some 1 ∧
      ('x' :: '/' :: '\\' :: [])[1]? = some '/' ∧
      (scanSlash (('x' :: '/' :: '\\' :: []).drop 1) 1).2 ≠ 3 ∧
      ('x' :: '/' :: '\\' :: []).length <
        1 + (scanSlash (('x' :: '/' :: '\\' :: []).drop 1) 1).1) ∧
    (Substitute (fun _ _ v => .ok v) ('$' :: '\x7b' :: 'x' :: []) (fun _ => none) =
        some (.ok ('$' :: '\x7b' :: 'x' :: [])) ∧
      Substitute (fun _ _ v => .ok v) ('$' :: '\x7b' :: 'x' :: ':' :: '-' :: 'y' :: [])
          (fun _ => none) =
        some (.ok ('$' :: '\x7b' :: 'x' :: ':' :: '-' :: 'y' :: [])) ∧
      Substitute (fun _ _ v => .ok v) ('$' :: '\x7b' :: 'x' :: '/' :: 'y' :: '/' :: 'z' :: [])
          (fun _ => none) =
        some (.ok ('$' :: '\x7b' :: 'x' :: '/' :: 'y' :: '/' :: 'z' :: [])) ∧
      Substitute (fun _ _ v => .ok v) ('$' :: '\x7b' :: 'x' :: '/' :: 'y' :: [])
          (fun _ => none) =
        some (.error (.malformedRegexpSubstIncomplete
          ('$' :: '\x7b' :: ('x' :: '/' :: 'y' :: []).take
            (1 + (scanSlash (('x' :: '/' :: 'y' :: []).drop 1) 1).1)))) ∧
      Substitute (fun _ _ v => .ok v) ('$' :: '\x7b' :: 'x' :: '/' :: '\\' :: [])
          (fun _ => none) = none) :=
  ⟨by decide,
    c10_unterminated_reference (fun _ _ v => .ok v) (fun _ => none)
      ('x' :: []) ('x' :: ':' :: '-' :: 'y' :: [])
      ('x' :: '/' :: 'y' :: '/' :: 'z' :: []) ('x' :: '/' :: 'y' :: [])
      ('x' :: '/' :: '\\' :: []) 1 1 1 1
      (by decide) (by decide) (by decide) (by decide) (by decide) (by decide)
      (by decide) (by decide) (by decide) (by decide) (by decide) (by decide)
      (by decide) (by decide) (by decide) (by decide)⟩

end Shutil
